import Mathlib

/-!
Verification of the avro package: a shallow embedding of the binary
encoder (encode.go), the Go-type schema derivation (gotype.go) and the
record resolution rules, with theorems settling the specified claims.

Byte streams are modelled as `List Nat` (each entry one byte value),
machine integers as `Int`, and the Go panic mechanism as the error side
of `Except`.
-/

/-- The abrupt-exit mechanism of the encoder: `encodeState.error` panics
with an `encodeError`; any other panic is `otherAbort`.  Corresponds to
the `encodeError` type and the `panic` calls in encode.go. -/
inductive GoAbort where
  | encodeError (msg : String)
  | otherAbort (msg : String)
deriving DecidableEq

/-- Zig-zag mapping of a signed integer to an unsigned one, as used by
`binary.PutVarint` (called from `encodeState.writeLong`). -/
def zigzagEnc (x : Int) : Nat :=
  (if 0 ≤ x then 2 * x else -2 * x - 1).toNat

/-- Little-endian base-128 encoding with continuation bits, as used by
`binary.PutVarint` for the zig-zag mapped value. -/
def uvarintEnc (n : Nat) : List Nat :=
  if n < 128 then [n]
  else (n % 128 + 128) :: uvarintEnc (n / 128)
termination_by n
decreasing_by exact Nat.div_lt_self (by omega) (by omega)

/-- `encodeState.writeLong` from encode.go: the variable-length zig-zag
encoding of a signed integer. -/
def writeLong (x : Int) : List Nat :=
  uvarintEnc (zigzagEnc x)

/-- An `encoderFunc` from encode.go: consumes a native value, produces
the appended bytes, or aborts (the panic raised by `encodeState.error`). -/
abbrev EncoderFunc (α : Type) : Type :=
  α → Except GoAbort (List Nat)

/-- `errorEncoder` from encode.go: always aborts via `encodeState.error`. -/
def errorEncoder (msg : String) : EncoderFunc α :=
  fun _ => .error (.encodeError msg)

/-- `longEncoder` from encode.go. -/
def longEncoder : EncoderFunc Int :=
  fun v => .ok (writeLong v)

/-- `stringEncoder` from encode.go: length prefix followed by the bytes
of the string (each character modelled as one byte). -/
def stringEncoder (s : String) : List Nat :=
  writeLong (s.length : Int) ++ s.data.map Char.toNat

/-- `arrayEncoder` from encode.go. -/
structure arrayEncoder (α : Type) where
  encodeElem : EncoderFunc α

/-- Sequential encoding of the elements of an array, mirroring the loop
body of `arrayEncoder.encode`. -/
def encodeElems (enc : EncoderFunc α) : List α → Except GoAbort (List Nat)
  | [] => .ok []
  | x :: xs => do
    let b ← enc x
    let r ← encodeElems enc xs
    .ok (b ++ r)

/-- `arrayEncoder.encode` from encode.go: writes the element count,
returns immediately when the count is zero, otherwise writes every
element followed by a terminating zero varint. -/
def arrayEncoder.encode (ae : arrayEncoder α) (xs : List α) : Except GoAbort (List Nat) :=
  if xs.length = 0 then .ok (writeLong (xs.length : Int))
  else do
    let body ← encodeElems ae.encodeElem xs
    .ok (writeLong (xs.length : Int) ++ body ++ writeLong 0)

/-- `mapEncoder` from encode.go. -/
structure mapEncoder (α : Type) where
  encodeElem : EncoderFunc α

/-- Sequential encoding of the entries of a map (key, then value),
mirroring the iteration body of `mapEncoder.encode`.  The map is
modelled as its iteration sequence of key-value pairs. -/
def encodeEntries (enc : EncoderFunc α) : List (String × α) → Except GoAbort (List Nat)
  | [] => .ok []
  | kv :: rest => do
    let b ← enc kv.2
    let r ← encodeEntries enc rest
    .ok (stringEncoder kv.1 ++ b ++ r)

/-- `mapEncoder.encode` from encode.go: writes the entry count, returns
immediately when the count is zero, otherwise writes each key-value
pair followed by a terminating zero varint. -/
def mapEncoder.encode (me : mapEncoder α) (kvs : List (String × α)) : Except GoAbort (List Nat) :=
  if kvs.length = 0 then .ok (writeLong (kvs.length : Int))
  else do
    let body ← encodeEntries me.encodeElem kvs
    .ok (writeLong (kvs.length : Int) ++ body ++ writeLong 0)

/-- `unionEncoderChoice` from encode.go: a union alternative with the
concrete Go type it handles (none for the null alternative slot) and
its element encoder.  Go types are identified by name. -/
structure unionEncoderChoice (α : Type) where
  typ : Option String
  enc : EncoderFunc α

/-- `unionEncoder` from encode.go. -/
structure unionEncoder (α : Type) where
  nullIndex : Int
  choices : List (unionEncoderChoice α)

/-- The linear scan in `unionEncoder.encode` looking for the choice
whose type equals the dynamic type of the value. -/
def unionFindChoice (vt : String) (x : α) :
    List (unionEncoderChoice α) → Nat → Except GoAbort (List Nat)
  | [], _ => .error (.encodeError ("unknown type for union " ++ vt))
  | c :: rest, i =>
    if c.typ = some vt then do
      let b ← c.enc x
      .ok (writeLong (i : Int) ++ b)
    else unionFindChoice vt x rest (i + 1)

/-- `unionEncoder.encode` from encode.go.  An interface value is either
nil (`none`) or carries a dynamic type name and a payload. -/
def unionEncoder.encode (ue : unionEncoder α) (v : Option (String × α)) :
    Except GoAbort (List Nat) :=
  match v with
  | none =>
    if ue.nullIndex ≠ -1 then .ok (writeLong ue.nullIndex)
    else .error (.encodeError "nil value not allowed")
  | some (vt, x) => unionFindChoice vt x ue.choices 0

/-- `ptrUnionEncoder` from encode.go: `indexes.1` is written for a nil
pointer, `indexes.2` for a non-nil one. -/
structure ptrUnionEncoder (α : Type) where
  indexes : Nat × Nat
  encodeElem : EncoderFunc α

/-- `ptrUnionEncoder.encode` from encode.go. -/
def ptrUnionEncoder.encode (pe : ptrUnionEncoder α) (v : Option α) :
    Except GoAbort (List Nat) :=
  match v with
  | none => .ok (writeLong (pe.indexes.1 : Int))
  | some x => do
    let b ← pe.encodeElem x
    .ok (writeLong (pe.indexes.2 : Int) ++ b)

/-- The pointer branch of the `schema.UnionField` case of `typeEncoder`
in encode.go: given the two union entries (the null alternative has a
nil field type, modelled as `none`; the other carries its element
encoder), build the `ptrUnionEncoder`.  The null alternative may sit at
either index. -/
def typeEncoderPtrUnion (e0 e1 : Option (EncoderFunc α)) :
    Except String (ptrUnionEncoder α) :=
  match e0, e1 with
  | none, some enc1 => .ok ⟨(0, 1), enc1⟩
  | some enc0, none => .ok ⟨(1, 0), enc0⟩
  | _, _ => .error "unexpected types in union"

/-- The recover block of `Marshal` in encode.go: an `encodeError` panic
is translated into an ordinary returned error; any other panic is
re-raised and escapes. -/
def marshalRecover (r : Except GoAbort (List Nat)) :
    Except GoAbort (Except String (List Nat)) :=
  match r with
  | .ok b => .ok (.ok b)
  | .error (.encodeError m) => .ok (.error m)
  | .error (.otherAbort m) => .error (.otherAbort m)

/-- The encode phase of `Marshal` from encode.go: run the compiled
encoder under the deferred recover.  The outer `Except` layer is the
panic channel visible to the caller; the inner one is the ordinary
returned error. -/
def Marshal (enc : EncoderFunc α) (x : α) :
    Except GoAbort (Except String (List Nat)) :=
  marshalRecover (enc x)

/-- A `reflect.StructField` as consulted by the derivation code in
gotype.go: the Go field name, the package path (non-empty exactly for
unexported fields), the value of the "json" struct tag (empty when
absent), and whether the field is anonymous (embedded). -/
structure StructField where
  name : String
  pkgPath : String
  jsonTag : String
  anonymous : Bool

/-- `strings.Split` with the separator ",", operating on the character
list of the string.  Splitting the empty string yields one empty part,
as in Go. -/
def splitComma : List Char → List (List Char)
  | [] => [[]]
  | c :: rest =>
    let r := splitComma rest
    if c = ',' then [] :: r
    else
      match r with
      | [] => [[c]]
      | p :: ps => (c :: p) :: ps

/-- `jsonFieldName` from gotype.go.  `none` models the runtime panic
that Go raises when the function indexes `parts[1]` on a slice with a
single element (any comma-free non-empty tag). -/
def jsonFieldName (f : StructField) : Option (String × Bool) :=
  if f.pkgPath ≠ "" then some ("", false)
  else
    let parts := (splitComma f.jsonTag.data).map (fun cs => String.mk cs)
    let omitEmpty := (parts.drop 1).contains "omitempty"
    if parts.headD "" = "" then some (f.name, omitEmpty)
    else
      match parts[1]? with
      | none => none
      | some p =>
        if p = "-" then some ("", omitEmpty)
        else some (parts.headD "", omitEmpty)

/-- An outcome of running a piece of Go derivation code: a runtime
panic, a returned error, or a returned value. -/
inductive DeriveOutcome (α : Type) where
  | panics
  | fails (msg : String)
  | ok (a : α)
deriving DecidableEq

/-- The field loop of the `reflect.Struct` case of
`goTypeSchema.schemaForGoType` in gotype.go, restricted to the field
names it derives: anonymous fields are an error, the name produced by
`jsonFieldName` is used for every other field (the loop never drops a
field, whatever name comes back). -/
def recordFieldNames : List StructField → DeriveOutcome (List String)
  | [] => .ok []
  | f :: fs =>
    if f.anonymous then .fails "anonymous fields not yet supported"
    else
      match jsonFieldName f with
      | none => .panics
      | some (n, _) =>
        match recordFieldNames fs with
        | .ok ns => .ok (n :: ns)
        | .fails m => .fails m
        | .panics => .panics

/-- `maxEnum` from gotype.go. -/
def maxEnum : Nat := 250

/-- `strings.Contains` for the single-character pattern "(" used by
`enumSymbols`, computed on the character list of the string. -/
def containsChar (s : String) (c : Char) : Bool :=
  s.data.contains c

/-- The collection loop of `enumSymbols` in gotype.go.  `symOf` is the
probe closure of the source (evaluate the `String` method at an integer;
`none` models the recovered panic, i.e. the not-ok result).  The first
argument is the remaining fuel `maxEnum - i`, the second the current
index `i`; when the fuel runs out the loop falls through to the final
`return nil` ("too many values"). -/
def enumLoop (symOf : Int → Option String) :
    Nat → Nat → String → List String → List String
  | 0, _, _, _ => []
  | fuel + 1, i, prev, syms =>
    match symOf (i : Int) with
    | none => syms
    | some sym =>
      if containsChar sym '(' then syms
      else if sym = "" then syms
      else if sym = prev then syms.dropLast
      else enumLoop symOf fuel (i + 1) sym (syms ++ [sym])

/-- `enumSymbols` from gotype.go, with the reflection plumbing of the
kind checks and the `symOf` closure abstracted into the probe function:
probe at -1 first (a panic or a result containing "(" indicates an
enum-like type; otherwise the heuristic gives up), then collect symbols
from 0 upwards. -/
def enumSymbols (symOf : Int → Option String) : List String :=
  match symOf (-1) with
  | some sym =>
    if containsChar sym '(' then enumLoop symOf maxEnum 0 "" []
    else []
  | none => enumLoop symOf maxEnum 0 "" []

/-- The guard `len(syms) > 0` in `goTypeSchema.schemaForGoType` that
decides whether a Go type is treated as an enum. -/
def treatedAsEnum (symOf : Int → Option String) : Bool :=
  (enumSymbols symOf).length > 0

/-- Lookup in the `goTypeToAvroType` cache (a `sync.Map` keyed by the
native type descriptor, here an abstract `Nat`).  The stored value is
either a derived schema or a cached error (`errorSchema`). -/
def cacheLookup (c : List (Nat × Except String String)) (t : Nat) :
    Option (Except String String) :=
  match c with
  | [] => none
  | (k, v) :: rest => if k = t then some v else cacheLookup rest t

/-- `sync.Map.LoadOrStore`: store the value only when the key is
absent. -/
def loadOrStore (c : List (Nat × Except String String)) (t : Nat)
    (v : Except String String) : List (Nat × Except String String) :=
  match cacheLookup c t with
  | some _ => c
  | none => c ++ [(t, v)]

/-- The observable outcome of one `avroTypeOf` call: the returned
result, the cache afterwards, and whether `schemaForGoTypeUncached`
(the actual derivation) was run. -/
structure AvroTypeOfResult where
  res : Except String String
  cache : List (Nat × Except String String)
  ran : Bool

/-- `avroTypeOf` from gotype.go (the nil-writer-type path): consult the
cache first, returning a cached error (`errorSchema`) or schema without
re-deriving; on a miss run the derivation `deriv` and record its result
- error or schema - with `LoadOrStore`. -/
def avroTypeOf (deriv : Nat → Except String String)
    (c : List (Nat × Except String String)) (t : Nat) : AvroTypeOfResult :=
  match cacheLookup c t with
  | some v => ⟨v, c, false⟩
  | none =>
    match deriv t with
    | .error e => ⟨.error e, loadOrStore c t (.error e), true⟩
    | .ok s => ⟨.ok s, loadOrStore c t (.ok s), true⟩

/-- Modelled from the spec: integers are read back with the
variable-length base-128 little-endian encoding (the inverse of
`writeLong`); the decode engine itself is not among the source files.
Arguments: remaining bytes, current shift, accumulator. -/
def readUvarint : List Nat → Nat → Nat → Option (Nat × List Nat)
  | [], _, _ => none
  | b :: rest, shift, acc =>
    if b < 128 then some (acc + b * 2 ^ shift, rest)
    else readUvarint rest (shift + 7) (acc + b % 128 * 2 ^ shift)

/-- Modelled from the spec: the zig-zag mapping folded out again (sign
in the low bit). -/
def zigzagDec (u : Nat) : Int :=
  if u % 2 = 0 then ((u / 2 : Nat) : Int) else -((u / 2 : Nat) : Int) - 1

/-- Modelled from the spec: read one variable-length zig-zag integer
from the byte stream. -/
def readLong (bs : List Nat) : Option (Int × List Nat) :=
  match readUvarint bs 0 0 with
  | none => none
  | some (u, rest) => some (zigzagDec u, rest)

/-- A decode failure: an incompatibility error naming the offending
reader field, or malformed input data. -/
inductive DecodeErr where
  | incompatible (field : String)
  | badData
deriving DecidableEq

/-- Modelled from the spec: decode the writer record's fields, in
writer field order, from the byte stream (every field of the schemas in
the claim is an int).  The engine is not among the source files. -/
def decodeWriterFields : List String → List Nat → Option (List (String × Int) × List Nat)
  | [], bs => some ([], bs)
  | f :: fs, bs =>
    match readLong bs with
    | none => none
    | some (v, rest) =>
      match decodeWriterFields fs rest with
      | none => none
      | some (vals, rest2) => some ((f, v) :: vals, rest2)

/-- Modelled from the spec: the resolution check for a record pair.  A
reader field with no same-named writer field must carry a default;
otherwise resolution fails with an incompatibility error naming the
field.  Reader fields are (name, optional default) pairs. -/
def checkReaderFields (writer : List String) :
    List (String × Option Int) → Except DecodeErr Unit
  | [] => .ok ()
  | (n, d) :: rest =>
    if writer.contains n then checkReaderFields writer rest
    else
      match d with
      | some _ => checkReaderFields writer rest
      | none => .error (.incompatible n)

/-- Modelled from the spec: populate the reader record, in reader field
order, from the decoded writer values, substituting the default for a
reader field the writer lacks (the zero fallback is unreachable once
`checkReaderFields` has passed). -/
def buildReaderRecord (vals : List (String × Int))
    (reader : List (String × Option Int)) : List (String × Int) :=
  reader.map fun nd =>
    (nd.1,
      match vals.lookup nd.1 with
      | some v => v
      | none => nd.2.getD 0)

/-- Modelled from the spec: decode a record written under `writer`
against `reader` - resolve the two schemas, consume the writer's bytes
in writer field order, and build the reader-shaped native record. -/
def decodeRecord (writer : List String) (reader : List (String × Option Int))
    (bs : List Nat) : Except DecodeErr (List (String × Int)) :=
  match checkReaderFields writer reader with
  | .error e => .error e
  | .ok _ =>
    match decodeWriterFields writer bs with
    | none => .error .badData
    | some (vals, _) => .ok (buildReaderRecord vals reader)

/-- Concrete enum probe for the heuristic boundary at -1: the value -1
stringifies without the bracket marker. -/
def exC4symOf : Int → Option String :=
  fun n => if n = -1 then some "MyInt" else none

/-- Concrete enum probe whose in-range symbol repeats at the two
consecutive values 1 and 2. -/
def exC5symOf : Int → Option String :=
  fun n =>
    if n = 0 then some "A"
    else if n = 1 then some "B"
    else if n = 2 then some "B"
    else none

/-- The symbols produced by `exC5symOf` at in-range indices. -/
def exC5f : Nat → String :=
  fun j => if j = 0 then "A" else "B"

/-- A union encoder with a single non-null alternative for Go type
"int" and no null alternative. -/
def exC6ue : unionEncoder Int :=
  ⟨-1, [⟨some "int", fun _ => .ok []⟩]⟩

theorem encodeElems_ok (enc : EncoderFunc α) (g : α → List Nat) (xs : List α)
    (h : ∀ x ∈ xs, enc x = .ok (g x)) :
    encodeElems enc xs = .ok (xs.flatMap g) := by
  induction xs with
  | nil => rfl
  | cons x rest ih =>
    have hx : enc x = .ok (g x) := h x (by simp)
    have hr := ih (fun y hy => h y (by simp [hy]))
    simp only [encodeElems, hx, hr, List.flatMap_cons]
    rfl

theorem encodeEntries_ok (enc : EncoderFunc α) (g : α → List Nat)
    (kvs : List (String × α)) (h : ∀ kv ∈ kvs, enc kv.2 = .ok (g kv.2)) :
    encodeEntries enc kvs = .ok (kvs.flatMap fun kv => stringEncoder kv.1 ++ g kv.2) := by
  induction kvs with
  | nil => rfl
  | cons kv rest ih =>
    have hx : enc kv.2 = .ok (g kv.2) := h kv (by simp)
    have hr := ih (fun y hy => h y (by simp [hy]))
    simp only [encodeEntries, hx, hr, List.flatMap_cons, List.append_assoc]
    rfl

theorem unionFindChoice_no_match (vt : String) (x : α)
    (cs : List (unionEncoderChoice α)) (h : ∀ c ∈ cs, c.typ ≠ some vt) :
    ∀ i, unionFindChoice vt x cs i
      = .error (.encodeError ("unknown type for union " ++ vt)) := by
  induction cs with
  | nil => intro i; rfl
  | cons c rest ih =>
    intro i
    have hc : ¬ c.typ = some vt := h c (by simp)
    rw [unionFindChoice, if_neg hc]
    exact ih (fun d hd => h d (by simp [hd])) (i + 1)

theorem cacheLookup_store_hit (c : List (Nat × Except String String)) (t : Nat)
    (v : Except String String) (h : cacheLookup c t = none) :
    cacheLookup (loadOrStore c t v) t = some v := by
  rw [loadOrStore, h]
  induction c with
  | nil => simp [cacheLookup]
  | cons kv rest ih =>
    obtain ⟨k, w⟩ := kv
    rw [cacheLookup] at h
    rw [List.cons_append, cacheLookup]
    by_cases hk : k = t
    · rw [if_pos hk] at h; exact absurd h (by simp)
    · rw [if_neg hk] at h ⊢
      exact ih h

theorem enumLoop_collect (symOf : Int → Option String) (f : Nat → String) (i : Nat)
    (hi : i < maxEnum)
    (hall : ∀ j, j ≤ i → symOf (j : Int) = some (f j)
      ∧ containsChar (f j) '(' = false ∧ f j ≠ "")
    (hdist : ∀ j, 1 ≤ j → j < i → f j ≠ f (j - 1))
    (hrep : f i = f (i - 1)) :
    ∀ n k, 1 ≤ k → k ≤ i → i - k = n →
      enumLoop symOf (maxEnum - k) k (f (k - 1)) ((List.range k).map f)
        = (List.range (i - 1)).map f := by
  intro n
  induction n with
  | zero =>
    intro k hk1 hki hn
    have hk : k = i := by omega
    subst hk
    obtain ⟨m, hm⟩ : ∃ m, maxEnum - k = m + 1 := ⟨maxEnum - k - 1, by omega⟩
    obtain ⟨hsym, hpar, hne⟩ := hall k le_rfl
    rw [hm, enumLoop, hsym]
    simp only [hpar, Bool.false_eq_true, if_false, if_neg hne, if_pos hrep]
    have h1 : (List.range k).map f = (List.range (k - 1)).map f ++ [f (k - 1)] := by
      conv_lhs => rw [show k = (k - 1) + 1 by omega]
      rw [List.range_succ, List.map_append, List.map_singleton]
    rw [h1, List.dropLast_concat]
  | succ n ih =>
    intro k hk1 hki hn
    have hklt : k < i := by omega
    obtain ⟨m, hm⟩ : ∃ m, maxEnum - k = m + 1 := ⟨maxEnum - k - 1, by omega⟩
    obtain ⟨hsym, hpar, hne⟩ := hall k (by omega)
    have hne2 : f k ≠ f (k - 1) := hdist k hk1 hklt
    rw [hm, enumLoop, hsym]
    simp only [hpar, Bool.false_eq_true, if_false, if_neg hne, if_neg hne2]
    have hm2 : m = maxEnum - (k + 1) := by omega
    have hr : (List.range k).map f ++ [f k] = (List.range (k + 1)).map f := by
      rw [List.range_succ, List.map_append, List.map_singleton]
    rw [hm2, hr]
    exact ih (k + 1) (by omega) (by omega) (by omega)

/-- Claim C1: for the record type with fields A (default 42) then B,
wire bytes written under writer field order [B, A] with B=20, A=40
(bytes 40, 80) decode to the record A=40, B=20; the same reader applied
to bytes written under a writer with only field B (byte 80) yields A=42
(the default) and B=40; and a writer with only field A fails with an
incompatibility error naming field B, which has no default. -/
theorem codec_record_resolution :
    decodeRecord ["B", "A"] [("A", some 42), ("B", none)] [40, 80]
        = .ok [("A", 40), ("B", 20)]
    ∧ decodeRecord ["B"] [("A", some 42), ("B", none)] [80]
        = .ok [("A", 42), ("B", 40)]
    ∧ decodeRecord ["A"] [("A", some 42), ("B", none)] [80]
        = .error (.incompatible "B") :=
  ⟨rfl, rfl, rfl⟩

/-- Claim C2 (amended): for every nonempty array or map the encoder
emits the varint element count, then every element (for maps, each
value preceded by its string key), then a terminating varint zero; the
empty array or map is encoded as the single varint zero with no
separate count block and no terminator after it. -/
theorem arrayMap_block_encoding (α : Type) (enc : EncoderFunc α) (g : α → List Nat)
    (xs : List α) (kvs : List (String × α))
    (hx : ∀ x ∈ xs, enc x = .ok (g x))
    (hk : ∀ kv ∈ kvs, enc kv.2 = .ok (g kv.2)) :
    (xs ≠ [] →
      (arrayEncoder.mk enc).encode xs
        = .ok (writeLong (xs.length : Int) ++ xs.flatMap g ++ writeLong 0))
    ∧ (arrayEncoder.mk enc).encode ([] : List α) = .ok (writeLong 0)
    ∧ (kvs ≠ [] →
      (mapEncoder.mk enc).encode kvs
        = .ok (writeLong (kvs.length : Int)
            ++ kvs.flatMap (fun kv => stringEncoder kv.1 ++ g kv.2) ++ writeLong 0))
    ∧ (mapEncoder.mk enc).encode ([] : List (String × α)) = .ok (writeLong 0) := by
  refine ⟨?_, rfl, ?_, rfl⟩
  · intro hne
    have hlen : ¬ xs.length = 0 := by simpa using hne
    rw [arrayEncoder.encode, if_neg hlen]
    simp only [encodeElems_ok enc g xs hx]
    rfl
  · intro hne
    have hlen : ¬ kvs.length = 0 := by simpa using hne
    rw [mapEncoder.encode, if_neg hlen]
    simp only [encodeEntries_ok enc g kvs hk]
    rfl

/-- Witness for the amended C2 theorem at a singleton array and a
singleton map. -/
theorem arrayMap_block_encoding_witness :
    (arrayEncoder.mk longEncoder).encode [(5 : Int)]
      = .ok (writeLong (([(5 : Int)] : List Int).length : Int)
          ++ ([(5 : Int)] : List Int).flatMap writeLong ++ writeLong 0)
    ∧ (mapEncoder.mk longEncoder).encode [("k", (7 : Int))]
      = .ok (writeLong (([("k", (7 : Int))] : List (String × Int)).length : Int)
          ++ ([("k", (7 : Int))] : List (String × Int)).flatMap
              (fun kv => stringEncoder kv.1 ++ writeLong kv.2) ++ writeLong 0) := by
  have h := arrayMap_block_encoding Int longEncoder writeLong [(5 : Int)] [("k", (7 : Int))]
    (by intro x hx; rfl) (by intro kv hkv; rfl)
  exact ⟨h.1 (by simp), h.2.2.1 (by simp)⟩

/-- Counterexample for claim C2 as stated: the empty array encodes as
the single byte 0 (just the zero varint), not as a zero count block
followed by a terminating zero varint. -/
theorem arrayEncoder_empty_counterexample :
    (arrayEncoder.mk longEncoder).encode ([] : List Int) = .ok (writeLong 0)
    ∧ (arrayEncoder.mk longEncoder).encode ([] : List Int)
        ≠ .ok (writeLong 0 ++ ([] : List Int).flatMap writeLong ++ writeLong 0) := by
  constructor
  · rfl
  · have h0 : writeLong 0 = [0] := by
      rw [writeLong]
      norm_num [zigzagEnc]
      rw [uvarintEnc]
      norm_num
    simp [arrayEncoder.encode, h0]

/-- Claim C3: the code contradicts the documented field naming and
exclusion rules.  `jsonFieldName` indexes `parts[1]` where the Go slice
has one element, so an exported field with tag "-" (or any comma-free
override such as "name") makes derivation panic with an
index-out-of-range runtime error instead of excluding the field or
using the override; and when the empty name is returned (tag "x,-") the
record loop still includes the field, under the empty name. -/
theorem jsonFieldName_dash_panics :
    jsonFieldName ⟨"F", "", "-", false⟩ = none
    ∧ recordFieldNames [⟨"F", "", "-", false⟩] = .panics
    ∧ jsonFieldName ⟨"F", "", "name", false⟩ = none
    ∧ recordFieldNames [⟨"F", "", "x,-", false⟩] = .ok [""]
    ∧ jsonFieldName ⟨"F", "", "", false⟩ = some ("F", false)
    ∧ jsonFieldName ⟨"F", "", "x,omitempty", false⟩ = some ("x", true) :=
  ⟨rfl, rfl, rfl, rfl, rfl, rfl⟩

/-- Claim C4: a stringifying integer type whose probe at -1 succeeds
with a result free of the bracket marker is never treated as an enum:
`enumSymbols` returns no symbols and the enum guard in
`schemaForGoType` fails, so structural dispatch applies. -/
theorem enumSymbols_inRange_neg_not_enum (symOf : Int → Option String) (s : String)
    (hs : symOf (-1) = some s) (hpar : containsChar s '(' = false) :
    enumSymbols symOf = [] ∧ treatedAsEnum symOf = false := by
  have h : enumSymbols symOf = [] := by
    rw [enumSymbols, hs]
    simp [hpar]
  exact ⟨h, by simp [treatedAsEnum, h]⟩

/-- Witness for C4 at a concrete probe whose value at -1 stringifies
without a bracket. -/
theorem enumSymbols_inRange_neg_not_enum_witness :
    enumSymbols exC4symOf = [] ∧ treatedAsEnum exC4symOf = false :=
  enumSymbols_inRange_neg_not_enum exC4symOf "MyInt" rfl (by decide)

/-- Claim C5 (amended): when the stringified result at index i >= 1
equals the result at index i-1 (and the probe behaved as an enum until
then), collection stops and the returned symbol set is the symbols at
indices 0 through i-2: both the repeated result at i and its equal
predecessor at i-1 are dropped. -/
theorem enumSymbols_repeat_truncation (symOf : Int → Option String) (f : Nat → String)
    (i : Nat) (h1 : 1 ≤ i) (hi : i < maxEnum)
    (hneg : symOf (-1) = none ∨ ∃ s, symOf (-1) = some s ∧ containsChar s '(' = true)
    (hall : ∀ j, j ≤ i → symOf (j : Int) = some (f j)
      ∧ containsChar (f j) '(' = false ∧ f j ≠ "")
    (hdist : ∀ j, 1 ≤ j → j < i → f j ≠ f (j - 1))
    (hrep : f i = f (i - 1)) :
    enumSymbols symOf = (List.range (i - 1)).map f := by
  have hloop : enumLoop symOf maxEnum 0 "" [] = (List.range (i - 1)).map f := by
    obtain ⟨hsym0, hpar0, hne0⟩ := hall 0 (by omega)
    have hstep : enumLoop symOf maxEnum 0 "" []
        = enumLoop symOf (maxEnum - 1) 1 (f 0) [f 0] := by
      rw [show maxEnum = (maxEnum - 1) + 1 from rfl, enumLoop, hsym0]
      simp [hpar0, hne0]
    rw [hstep]
    have := enumLoop_collect symOf f i hi hall hdist hrep (i - 1) 1 le_rfl h1 (by omega)
    simpa using this
  rcases hneg with hn | ⟨s, hs, hpar⟩
  · rw [enumSymbols, hn, hloop]
  · rw [enumSymbols, hs]
    simp [hpar, hloop]

/-- Witness for the amended C5 theorem: the probe yields A at 0 and B
at both 1 and 2, so the repeat at i = 2 truncates the set to the
symbols at indices 0 through 0. -/
theorem enumSymbols_repeat_truncation_witness :
    enumSymbols exC5symOf = (List.range (2 - 1)).map exC5f :=
  enumSymbols_repeat_truncation exC5symOf exC5f 2 (by omega) (by decide)
    (Or.inl rfl) (by decide) (by decide) rfl

/-- Counterexample for claim C5 as stated: with the repeat at i = 2
(B at indices 1 and 2 after A at 0), the returned set is A alone, not
the symbols at indices 0 through i-1 = 1 (which would be A, B). -/
theorem enumSymbols_repeat_counterexample :
    exC5symOf 1 = some "B" ∧ exC5symOf 2 = some "B"
    ∧ enumSymbols exC5symOf = ["A"]
    ∧ enumSymbols exC5symOf ≠ (List.range 2).map exC5f := by
  refine ⟨rfl, rfl, rfl, ?_⟩
  rw [show enumSymbols exC5symOf = ["A"] from rfl]
  decide

/-- Claim C6: when the dynamic type of an interface value matches no
union alternative, `unionEncoder.encode` aborts with an encode error
(reported to that call); a nil value with no null alternative is
likewise an encode error. -/
theorem unionEncoder_unmatched_errors (ue : unionEncoder α) (vt : String) (x : α)
    (hno : ∀ c ∈ ue.choices, c.typ ≠ some vt) :
    (∃ m, ue.encode (some (vt, x)) = .error (.encodeError m))
    ∧ (ue.nullIndex = -1 → ∃ m, ue.encode none = .error (.encodeError m)) := by
  constructor
  · exact ⟨"unknown type for union " ++ vt,
      unionFindChoice_no_match vt x ue.choices hno 0⟩
  · intro hnull
    refine ⟨"nil value not allowed", ?_⟩
    simp [unionEncoder.encode, hnull]

/-- Witness for C6: a union whose only alternative handles Go type
"int", probed with a value of dynamic type "string", and the nil case
for its missing null alternative. -/
theorem unionEncoder_unmatched_errors_witness :
    (∃ m, exC6ue.encode (some ("string", (0 : Int))) = .error (.encodeError m))
    ∧ (exC6ue.nullIndex = -1 → ∃ m, exC6ue.encode none = .error (.encodeError m)) :=
  unionEncoder_unmatched_errors exC6ue "string" 0
    (by intro c hc; simp [exC6ue] at hc; rw [hc]; decide)

/-- Claim C7: `avroTypeOf` is memoized per native type including error
results: whatever the first call on a cache returns - cached error or
schema - the second call on the resulting cache returns the same result
without running the derivation, and leaves the cache unchanged (so
every later call behaves the same). -/
theorem avroTypeOf_memoized (deriv : Nat → Except String String)
    (c : List (Nat × Except String String)) (t : Nat) :
    (avroTypeOf deriv (avroTypeOf deriv c t).cache t).res = (avroTypeOf deriv c t).res
    ∧ (avroTypeOf deriv (avroTypeOf deriv c t).cache t).ran = false
    ∧ (avroTypeOf deriv (avroTypeOf deriv c t).cache t).cache
        = (avroTypeOf deriv c t).cache := by
  cases h : cacheLookup c t with
  | some v => simp [avroTypeOf, h]
  | none =>
    cases hd : deriv t with
    | error e =>
      have h2 := cacheLookup_store_hit c t (.error e) h
      simp [avroTypeOf, h, hd, h2]
    | ok s =>
      have h2 := cacheLookup_store_hit c t (.ok s) h
      simp [avroTypeOf, h, hd, h2]

/-- Claim C8: an encoder whose only abrupt exits are the internal
encode-error abort (the panic raised by `encodeState.error` in the step
functions) never lets that abort escape `Marshal`: the call returns a
normal success-or-error result for every input value. -/
theorem marshal_no_escape (enc : EncoderFunc α) (x : α)
    (h : ∀ p, enc x = .error p → ∃ m, p = .encodeError m) :
    ∃ r, Marshal enc x = .ok r := by
  cases he : enc x with
  | ok b => exact ⟨.ok b, by simp [Marshal, marshalRecover, he]⟩
  | error p =>
    obtain ⟨m, hm⟩ := h p he
    subst hm
    exact ⟨.error m, by simp [Marshal, marshalRecover, he]⟩

/-- Witness for C8: `Marshal` over the always-aborting `errorEncoder`
returns normally. -/
theorem marshal_no_escape_witness :
    ∃ r, Marshal (errorEncoder "expected struct") (0 : Int) = .ok r :=
  marshal_no_escape (errorEncoder "expected struct") 0
    (fun _p h => ⟨"expected struct", (Except.error.inj h).symm⟩)

/-- Claim C10: for a two-alternative union of Null and one other type
bound to a Go pointer, the null alternative is supported at either
union index: a nil pointer writes the varint index of whichever
alternative is Null (0 or 1) and nothing else, and a non-nil pointer
writes the other index followed by the pointee's encoding. -/
theorem ptrUnion_null_either_index (α : Type) (enc : EncoderFunc α) (x : α) :
    (∃ pe, typeEncoderPtrUnion none (some enc) = .ok pe
      ∧ ptrUnionEncoder.encode pe none = .ok (writeLong 0)
      ∧ ptrUnionEncoder.encode pe (some x)
          = Except.map (fun b => writeLong 1 ++ b) (enc x))
    ∧ (∃ pe, typeEncoderPtrUnion (some enc) none = .ok pe
      ∧ ptrUnionEncoder.encode pe none = .ok (writeLong 1)
      ∧ ptrUnionEncoder.encode pe (some x)
          = Except.map (fun b => writeLong 0 ++ b) (enc x)) := by
  refine ⟨⟨⟨(0, 1), enc⟩, rfl, rfl, ?_⟩, ⟨⟨(1, 0), enc⟩, rfl, rfl, ?_⟩⟩ <;>
    cases he : enc x <;> simp [ptrUnionEncoder.encode, he, Except.map] <;> rfl
